import Mathlib

/-!
Verification of the PDF editor's edit-state model and rebuild/commit engine
(src/script.js, with the validated rebuild revision from the repository's
earlier editor revision).

The document codec (pdf-lib) is modelled as a faithful black box, as the
specification assumes: a byte buffer is the serialization of a document, a
document is a list of pages, and a page has opaque content plus an optional
intrinsic rotation (pdf-lib's getRotation() can be undefined on un-rotated
pages, hence Option Int).  JavaScript's remainder operator on Int is
truncating, which is Int.tmod.
-/

/-- A page of a document: opaque content plus the intrinsic rotation entry.
`rot = none` models pdf-lib pages where getRotation() yields undefined. -/
structure Page where
  content : Nat
  rot : Option Int
deriving DecidableEq, Repr

/-- A page-indexable document handle (pdf-lib PDFDocument). -/
structure Doc where
  pages : List Page
deriving DecidableEq, Repr

/-- A serialized byte buffer.  The codec is assumed correct, so bytes are a
faithful serialization of the document they encode. -/
structure Bytes where
  doc : Doc
deriving DecidableEq, Repr

/-- Default page used only to state getD-style indexing equalities. -/
def defaultPage : Page := { content := 0, rot := none }

/-- getPageRotationAngle from src/script.js lines 41-46: read the page's
rotation, defaulting to 0 when the codec reports it as undefined. -/
def getPageRotationAngle (p : Page) : Int :=
  p.rot.getD 0

/-- The error exits of the editor, named after the specification's taxonomy.
Each constructor corresponds to one distinct exit path of the handlers. -/
inductive EditErr where
  | noPdfLoaded
  | codecError
  | stateCorruption
  | invalidRange
  | emptySelection
  | cannotDeleteAll
  | insufficientInputs
deriving DecidableEq, Repr

/-- The module-level session state S of src/script.js (the fields the edit
engine reads and writes; rendering-only fields are out of scope). -/
structure EditorState where
  rawBytes : Option Bytes
  pageOrder : List Int
  pageRots : List (Int × Int)
  selectedPgs : Finset Nat
  curPage : Nat
  totalPages : Nat
deriving DecidableEq

/-- The identity page order Array.from size n, (_, i) => i. -/
def identityOrder (n : Nat) : List Int :=
  List.map (fun k : Nat => (k : Int)) (List.range n)

/-- Ledger read S.pageRots at origIdx with JavaScript default: value or 0. -/
def rotLookup (rots : List (Int × Int)) (i : Int) : Int :=
  (rots.lookup i).getD 0

/-- Ledger write S.pageRots at origIdx := v (JavaScript object assignment). -/
def rotSet (rots : List (Int × Int)) (k v : Int) : List (Int × Int) :=
  (k, v) :: rots.eraseP (fun p => p.1 == k)

/-- dest.copyPages(src, indices): copy the named pages out of src in the
given sequence.  pdf-lib throws on an invalid index, modelled as none.
A negative index never fetches a page. -/
def copyPages (src : Doc) : List Int → Option (List Page)
  | [] => some []
  | i :: rest =>
    match (if 0 ≤ i then src.pages[i.toNat]? else none), copyPages src rest with
    | some p, some ps => some (p :: ps)
    | _, _ => none

/-- The per-page body of rebuild's forEach (src/script.js lines 337-345):
if the ledger delta is nonzero, set the rotation to
(current + extra) % 360 with the undefined-safe current angle;
otherwise leave the page untouched. -/
def rotateIfNeeded (rots : List (Int × Int)) (i : Int) (p : Page) : Page :=
  if rotLookup rots i ≠ 0 then
    { p with rot := some (Int.tmod (getPageRotationAngle p + rotLookup rots i) 360) }
  else p

/-- rebuild from src/script.js lines 332-347: load the snapshot, create a
destination, copy the pages named by S.pageOrder, apply ledger rotations,
serialize. -/
def rebuild (s : EditorState) : Except EditErr Bytes :=
  match s.rawBytes with
  | none => Except.error EditErr.noPdfLoaded
  | some b =>
    match copyPages b.doc s.pageOrder with
    | none => Except.error EditErr.codecError
    | some pages =>
      Except.ok
        { doc :=
            { pages :=
                (pages.zip s.pageOrder).map
                  (fun pr => rotateIfNeeded s.pageRots pr.2 pr.1) } }

/-- ingestBytes from src/script.js lines 169-179.  isNew = true resets the
order to identity, clears the ledger and the selection, and rewinds the
current page; isNew = false only swaps the bytes and page count. -/
def ingestBytes (s : EditorState) (b : Bytes) (isNew : Bool) : EditorState :=
  let total := b.doc.pages.length
  if isNew then
    { rawBytes := some b, pageOrder := identityOrder total, pageRots := [],
      selectedPgs := ∅, curPage := 1, totalPages := total }
  else
    { s with rawBytes := some b, totalPages := total }

/-- The pristine session before any upload. -/
def emptyState : EditorState :=
  { rawBytes := none, pageOrder := [], pageRots := [], selectedPgs := ∅,
    curPage := 1, totalPages := 0 }

/-- applyEdit from src/script.js lines 354-365: install the commit bytes,
reset the order to identity over the new page count, clear the ledger and
clamp the current page.  Note the handler does not touch S.selectedPgs. -/
def applyEdit (s : EditorState) (b : Bytes) : EditorState :=
  let total := b.doc.pages.length
  { rawBytes := some b, pageOrder := identityOrder total, pageRots := [],
    selectedPgs := s.selectedPgs, curPage := min s.curPage total,
    totalPages := total }

/-- JavaScript list.splice(i, 1): remove the entry at position i; removes
nothing when i is out of range. -/
def jsSpliceRemove (l : List α) (i : Nat) : List α :=
  l.take i ++ l.drop (i + 1)

/-- JavaScript list.splice(i, 0, a): insert a at position i; appends at the
end when i exceeds the length. -/
def jsSpliceInsert (l : List α) (i : Nat) (a : α) : List α :=
  l.take i ++ a :: l.drop i

/-- The Sortable onEnd reorder handler (src/script.js lines 572-580):
splice the moved entry out of its old position, splice it back in at the
new one, and clear the selection.  Sortable only produces positions of
existing thumbs, so the out-of-range lookup branch is unreachable there. -/
def reorderPages (s : EditorState) (oldIndex newIndex : Nat) : EditorState :=
  match s.pageOrder[oldIndex]? with
  | none => s
  | some moved =>
    { s with
      pageOrder := jsSpliceInsert (jsSpliceRemove s.pageOrder oldIndex) newIndex moved,
      selectedPgs := ∅ }

/-- Enumerate a finite set of positions as the ascending list of its
elements (every element is at most its sup, so the range scan is
exhaustive).  This is the executable stand-in for listing a JavaScript
Set and sorting it. -/
def selSortAsc (sel : Finset Nat) : List Nat :=
  (List.range (sel.sup id + 1)).filter (fun i => decide (i ∈ sel))

/-- rotateSel from src/script.js lines 617-627: for each selected position,
bump the ledger entry of the original index there by
(old + deg + 360) % 360, then clear the selection.  The JavaScript Set is
iterated in insertion order; distinct positions touch distinct ledger keys
when the order table has no duplicates, and repeated keys apply the same
update, so any iteration order yields the same ledger — we iterate the
selection in ascending order. -/
def rotateSel (s : EditorState) (deg : Int) : EditorState :=
  if s.selectedPgs = ∅ then s
  else
    { s with
      pageRots :=
        (selSortAsc s.selectedPgs).foldl
          (fun rots i =>
            match s.pageOrder[i]? with
            | none => rots
            | some orig =>
                rotSet rots orig (Int.tmod (rotLookup rots orig + deg + 360) 360))
          s.pageRots,
      selectedPgs := ∅ }

/-- The deleteSelectedBtn handler (src/script.js lines 604-615): empty
selections return silently; a selection at least as large as the table is
rejected with the Cannot-delete-all toast; otherwise the selected
positions are spliced out in descending order, the selection cleared, the
display page count synced to the shortened table and the current page
clamped. -/
def deleteSelected (s : EditorState) : Except EditErr EditorState :=
  if s.selectedPgs = ∅ then Except.error EditErr.emptySelection
  else if s.pageOrder.length ≤ s.selectedPgs.card then
    Except.error EditErr.cannotDeleteAll
  else
    Except.ok
      { s with
        pageOrder := ((selSortAsc s.selectedPgs).reverse).foldl jsSpliceRemove s.pageOrder,
        selectedPgs := ∅,
        totalPages :=
          (((selSortAsc s.selectedPgs).reverse).foldl jsSpliceRemove s.pageOrder).length,
        curPage := min s.curPage
          (((selSortAsc s.selectedPgs).reverse).foldl jsSpliceRemove s.pageOrder).length }

/-- The content-edit protocol shared by the addTextBtn, addImageBtn and
addSigBtn handlers (src/script.js lines 632-660): inside one try block,
rebuild the baseline, reopen it, apply the content mutation, serialize,
and only then commit via applyEdit; the catch leaves the session state
untouched.  The four codec-dependent steps are passed in as fallible
functions since the codec is external. -/
def applyContentEditFlow (s : EditorState)
    (rebuildStep : EditorState → Except EditErr Bytes)
    (loadStep : Bytes → Except EditErr Doc)
    (mutateStep : Doc → Except EditErr Doc)
    (saveStep : Doc → Except EditErr Bytes) : EditorState × Except EditErr Bytes :=
  match rebuildStep s with
  | Except.error e => (s, Except.error e)
  | Except.ok base =>
    match loadStep base with
    | Except.error e => (s, Except.error e)
    | Except.ok doc =>
      match mutateStep doc with
      | Except.error e => (s, Except.error e)
      | Except.ok doc2 =>
        match saveStep doc2 with
        | Except.error e => (s, Except.error e)
        | Except.ok commitBytes => (applyEdit s commitBytes, Except.ok commitBytes)

/-- The codec primitives, for tracing which of them an operation performed. -/
inductive CodecCall where
  | load
  | create
  | copy
  | serialize
deriving DecidableEq, Repr

/-- rebuild from the earlier editor revision (src/unnamed/part_000 lines
315-350), the revision carrying the HARD VALIDATION block: load the
snapshot, create the destination, read the page count, filter the order
down to integer entries in range, and throw the corruption error when the
filter dropped anything; otherwise copy, rotate and serialize as in the
final revision.  The first component records the codec calls performed.
Number.isInteger always holds for our Int entries. -/
def rebuildValidated (s : EditorState) : List CodecCall × Except EditErr Bytes :=
  match s.rawBytes with
  | none => ([], Except.error EditErr.noPdfLoaded)
  | some b =>
    let total := b.doc.pages.length
    let safeOrder := s.pageOrder.filter (fun i => decide (0 ≤ i ∧ i < (total : Int)))
    if safeOrder.length ≠ s.pageOrder.length then
      ([CodecCall.load, CodecCall.create], Except.error EditErr.stateCorruption)
    else
      match copyPages b.doc safeOrder with
      | none =>
          ([CodecCall.load, CodecCall.create, CodecCall.copy],
           Except.error EditErr.codecError)
      | some pages =>
          ([CodecCall.load, CodecCall.create, CodecCall.copy, CodecCall.serialize],
           Except.ok
             { doc :=
                 { pages :=
                     (pages.zip safeOrder).map
                       (fun pr => rotateIfNeeded s.pageRots pr.2 pr.1) } })

/-- The loop body of the mergeBtn handler (src/script.js lines 474-480):
load each source, copy all of its pages in its own order
(doc.getPageIndices() is the identity list) and append them. -/
def mergeLoop : Doc → List Bytes → Except EditErr Doc
  | acc, [] => Except.ok acc
  | acc, f :: rest =>
    match copyPages f.doc (identityOrder f.doc.pages.length) with
    | none => Except.error EditErr.codecError
    | some pgs => mergeLoop { pages := acc.pages ++ pgs } rest

/-- The mergeBtn handler (src/script.js lines 470-488): refuse fewer than
two sources (the button is disabled and the handler returns without
producing a document), else concatenate and serialize. -/
def mergeDocs (sources : List Bytes) : Except EditErr Bytes :=
  if sources.length < 2 then Except.error EditErr.insufficientInputs
  else (mergeLoop { pages := [] } sources).map Bytes.mk

/-- The merge handler viewed as an operation on the session: it reads only
its own source list and never assigns any session field. -/
def mergeBtnOp (s : EditorState) (sources : List Bytes) :
    EditorState × Except EditErr Bytes :=
  (s, mergeDocs sources)

/-- The body of the splitBtn handler after validation (src/script.js lines
508-513): load the snapshot bytes directly (not a rebuild), copy pages
from-1 .. to-1 in order, and serialize. -/
def splitCore (b : Bytes) (fromPg toPg : Int) : Except EditErr Bytes :=
  match copyPages b.doc
      (List.map (fun i : Nat => fromPg - 1 + (i : Int))
        (List.range (toPg - fromPg + 1).toNat)) with
  | none => Except.error EditErr.codecError
  | some pgs => Except.ok (Bytes.mk (Doc.mk pgs))

/-- The splitBtn handler (src/script.js lines 499-520): validate the
1-indexed inclusive range against the displayed page count, then extract
via splitCore.  No session field is assigned. -/
def splitOp (s : EditorState) (fromPg toPg : Int) :
    EditorState × Except EditErr Bytes :=
  match s.rawBytes with
  | none => (s, Except.error EditErr.noPdfLoaded)
  | some b =>
    if fromPg < 1 ∨ (s.totalPages : Int) < toPg ∨ toPg < fromPg then
      (s, Except.error EditErr.invalidRange)
    else (s, splitCore b fromPg toPg)

/-- The specification's reading of delete (section 6): keep exactly the
entries whose order position is not selected, preserving their sequence.
The index argument is the position of the list head. -/
def keepUnselected (sel : Finset Nat) : Nat → List Int → List Int
  | _, [] => []
  | i, a :: rest =>
    if i ∈ sel then keepUnselected sel (i + 1) rest
    else a :: keepUnselected sel (i + 1) rest

/-- The snapshot's own page count (0 with no snapshot loaded). -/
def snapPageCount (s : EditorState) : Nat :=
  (s.rawBytes.map (fun b => b.doc.pages.length)).getD 0

/-- The order-table invariant the code actually maintains: entries are
distinct original indices, each valid for the installed snapshot. -/
def OrderInv (s : EditorState) : Prop :=
  s.pageOrder.Nodup ∧ ∀ i ∈ s.pageOrder, 0 ≤ i ∧ i.toNat < snapPageCount s

instance (s : EditorState) : Decidable (OrderInv s) := by
  unfold OrderInv; infer_instance

/-- The invariant as the specification claims it: additionally the table is
never shorter than the snapshot, i.e. a full permutation of the snapshot's
page indices. -/
def OrderInvClaimed (s : EditorState) : Prop :=
  OrderInv s ∧ s.pageOrder.length = snapPageCount s

instance (s : EditorState) : Decidable (OrderInvClaimed s) := by
  unfold OrderInvClaimed; infer_instance

/-! ## General lemmas about the model -/

/-- JavaScript's truncating remainder is congruent to its argument. -/
lemma tmod_modEq (a n : Int) : Int.ModEq n (Int.tmod a n) a := by
  have h := Int.tdiv_add_tmod a n
  have hd : a - Int.tmod a n = n * Int.tdiv a n := by omega
  exact (Int.modEq_iff_dvd).mpr ⟨Int.tdiv a n, hd⟩

/-- Copying with only valid indices succeeds and fetches exactly the named
pages. -/
lemma copyPages_eq_map (d : Doc) (idxs : List Int)
    (h : ∀ i ∈ idxs, 0 ≤ i ∧ i.toNat < d.pages.length) :
    copyPages d idxs = some (idxs.map fun i => d.pages.getD i.toNat defaultPage) := by
  induction idxs with
  | nil => rfl
  | cons i rest ih =>
    obtain ⟨hpos, hlt⟩ := h i (List.mem_cons_self i rest)
    have hrest := ih fun j hj => h j (List.mem_cons_of_mem i hj)
    simp only [copyPages, if_pos hpos, List.getElem?_eq_getElem hlt, hrest,
      List.map_cons, List.getD_eq_getElem d.pages defaultPage hlt]

/-- Applying the per-page rotation step never changes the page content. -/
lemma rotateIfNeeded_content (r : List (Int × Int)) (i : Int) (p : Page) :
    (rotateIfNeeded r i p).content = p.content := by
  unfold rotateIfNeeded
  split <;> rfl

/-- The rotation after the per-page step is congruent mod 360 to the
intrinsic rotation plus the ledger delta. -/
lemma rotateIfNeeded_modEq (r : List (Int × Int)) (i : Int) (p : Page) :
    Int.ModEq 360 (getPageRotationAngle (rotateIfNeeded r i p))
      (getPageRotationAngle p + rotLookup r i) := by
  unfold rotateIfNeeded
  by_cases h : rotLookup r i ≠ 0
  · simp only [if_pos h]
    exact tmod_modEq (getPageRotationAngle p + rotLookup r i) 360
  · simp only [if_neg h]
    push_neg at h
    rw [h, add_zero]

/-- With an empty ledger the per-page step is the identity. -/
lemma rotateIfNeeded_nil (i : Int) (p : Page) : rotateIfNeeded [] i p = p := by
  unfold rotateIfNeeded rotLookup
  simp

lemma length_identityOrder (n : Nat) : (identityOrder n).length = n := by
  rw [identityOrder, List.length_map, List.length_range]

lemma getElem_identityOrder (n k : Nat) (h : k < (identityOrder n).length) :
    (identityOrder n)[k] = (k : Int) := by
  simp only [identityOrder, List.getElem_map, List.getElem_range]

lemma nodup_identityOrder (n : Nat) : (identityOrder n).Nodup :=
  List.Nodup.map Nat.cast_injective (List.nodup_range n)

lemma mem_identityOrder {n : Nat} {i : Int} (h : i ∈ identityOrder n) :
    0 ≤ i ∧ i.toNat < n := by
  rw [identityOrder, List.mem_map] at h
  obtain ⟨k, hk, rfl⟩ := h
  rw [List.mem_range] at hk
  exact ⟨Int.natCast_nonneg k, by simpa using hk⟩

/-- Copying every page in the identity order reproduces the document's page
list. -/
lemma copyPages_identity (d : Doc) :
    copyPages d (identityOrder d.pages.length) = some d.pages := by
  rw [copyPages_eq_map]
  · congr 1
    apply List.ext_getElem
    · rw [List.length_map, length_identityOrder]
    · intro k h1 h2
      rw [List.getElem_map, getElem_identityOrder, Int.toNat_natCast,
        List.getD_eq_getElem d.pages defaultPage h2]
  · intro i hi
    exact mem_identityOrder hi

/-- Unfolding rebuild on a loaded snapshot whose copy step succeeds. -/
lemma rebuild_eq_ok (s : EditorState) (b : Bytes) (pages : List Page)
    (hb : s.rawBytes = some b)
    (hcp : copyPages b.doc s.pageOrder = some pages) :
    rebuild s = Except.ok (Bytes.mk (Doc.mk ((pages.zip s.pageOrder).map
      (fun pr => rotateIfNeeded s.pageRots pr.2 pr.1)))) := by
  simp only [rebuild, hb, hcp]

/-! ## Claim C1: the rebuild guarantees -/

/-- C1 counterexample: a legal source page can carry an intrinsic rotation
entry of 450 degrees (any multiple of 90).  With no ledger entry for it,
rebuild copies the page untouched, so the output rotation is 450 — not
(450 + 0) mod 360 = 90 as the claim states, under either the euclidean or
the JavaScript truncating reading of mod.  The content and count clauses
hold; only the literal rotation equation fails. -/
theorem rebuild_rot450_breaks_mod_claim :
    rebuild { rawBytes := some { doc := { pages := [{ content := 3, rot := some 450 }] } },
              pageOrder := [0], pageRots := [], selectedPgs := ∅,
              curPage := 1, totalPages := 1 } =
      Except.ok { doc := { pages := [{ content := 3, rot := some 450 }] } } ∧
    getPageRotationAngle { content := 3, rot := some 450 } = 450 ∧
    Int.emod (450 + rotLookup [] 0) 360 = 90 ∧
    Int.tmod (450 + rotLookup [] 0) 360 = 90 ∧
    getPageRotationAngle { content := 3, rot := some 450 } ≠ 90 := by
  exact ⟨rfl, rfl, by decide, by decide, by decide⟩

/-- C1 (amended): for every loaded snapshot, every order table of valid
original indices and every ledger, rebuild succeeds with page count equal
to the table length and page k holding the content of source page
order[k]; page k's rotation is congruent mod 360 to the source page's
intrinsic rotation (undefined read as 0) plus the ledger delta (absent
read as 0).  The rotation is literally (intrinsic + delta) % 360 only when
the delta is nonzero; a zero delta leaves the intrinsic entry untouched. -/
theorem rebuild_count_content_rot_congruent (s : EditorState) (b : Bytes)
    (hb : s.rawBytes = some b)
    (hv : ∀ i ∈ s.pageOrder, 0 ≤ i ∧ i.toNat < b.doc.pages.length) :
    ∃ out : Bytes, rebuild s = Except.ok out ∧
      out.doc.pages.length = s.pageOrder.length ∧
      ∀ k, k < s.pageOrder.length →
        (out.doc.pages.getD k defaultPage).content
          = (b.doc.pages.getD (s.pageOrder.getD k 0).toNat defaultPage).content ∧
        Int.ModEq 360
          (getPageRotationAngle (out.doc.pages.getD k defaultPage))
          (getPageRotationAngle (b.doc.pages.getD (s.pageOrder.getD k 0).toNat defaultPage)
            + rotLookup s.pageRots (s.pageOrder.getD k 0)) := by
  have hcp := copyPages_eq_map b.doc s.pageOrder hv
  refine ⟨Bytes.mk (Doc.mk
      (((s.pageOrder.map fun i => b.doc.pages.getD i.toNat defaultPage).zip s.pageOrder).map
        (fun pr => rotateIfNeeded s.pageRots pr.2 pr.1))), ?_, ?_, ?_⟩
  · exact rebuild_eq_ok s b _ hb hcp
  · simp only [List.length_map, List.length_zip, min_self]
  · intro k hk
    have hzl : ((s.pageOrder.map fun i => b.doc.pages.getD i.toNat defaultPage).zip
        s.pageOrder).length = s.pageOrder.length := by
      simp only [List.length_zip, List.length_map, min_self]
    have hkz : k < ((s.pageOrder.map fun i => b.doc.pages.getD i.toNat defaultPage).zip
        s.pageOrder).length := by rw [hzl]; exact hk
    have hkm : k < (((s.pageOrder.map fun i => b.doc.pages.getD i.toNat defaultPage).zip
        s.pageOrder).map (fun pr => rotateIfNeeded s.pageRots pr.2 pr.1)).length := by
      rw [List.length_map]; exact hkz
    have hkmap : k < (s.pageOrder.map fun i => b.doc.pages.getD i.toNat defaultPage).length := by
      rw [List.length_map]; exact hk
    have hget : (((s.pageOrder.map fun i => b.doc.pages.getD i.toNat defaultPage).zip
          s.pageOrder).map (fun pr => rotateIfNeeded s.pageRots pr.2 pr.1)).getD k defaultPage
        = rotateIfNeeded s.pageRots (s.pageOrder[k])
            (b.doc.pages.getD (s.pageOrder[k]).toNat defaultPage) := by
      rw [List.getD_eq_getElem _ defaultPage hkm, List.getElem_map, List.getElem_zip,
        List.getElem_map]
    have hord : s.pageOrder.getD k 0 = s.pageOrder[k] :=
      List.getD_eq_getElem s.pageOrder 0 hk
    rw [hget, hord]
    exact ⟨rotateIfNeeded_content _ _ _, rotateIfNeeded_modEq _ _ _⟩

/-- A 2-page sample snapshot whose first page is intrinsically rotated. -/
def wBytes : Bytes :=
  { doc := { pages := [{ content := 20, rot := some 90 },
                       { content := 21, rot := none }] } }

/-- A sample session showing wBytes reversed with a +90 ledger entry on
original page 0. -/
def wState : EditorState :=
  { rawBytes := some wBytes, pageOrder := [1, 0], pageRots := [(0, 90)],
    selectedPgs := ∅, curPage := 1, totalPages := 2 }

/-- C1 witness: the amended guarantee instantiated on wState. -/
theorem rebuild_count_content_rot_congruent_witness :
    ∃ out : Bytes, rebuild wState = Except.ok out ∧
      out.doc.pages.length = wState.pageOrder.length ∧
      ∀ k, k < wState.pageOrder.length →
        (out.doc.pages.getD k defaultPage).content
          = (wBytes.doc.pages.getD (wState.pageOrder.getD k 0).toNat defaultPage).content ∧
        Int.ModEq 360
          (getPageRotationAngle (out.doc.pages.getD k defaultPage))
          (getPageRotationAngle
              (wBytes.doc.pages.getD (wState.pageOrder.getD k 0).toNat defaultPage)
            + rotLookup wState.pageRots (wState.pageOrder.getD k 0)) :=
  rebuild_count_content_rot_congruent wState wBytes rfl (by decide)

/-! ## Claim C6: the ingest-then-rebuild round trip -/

/-- C6 counterexample: ingesting a document whose single page carries an
intrinsic rotation of 90 and immediately rebuilding returns that page with
rotation 90, not 0 — the claim that every output rotation is 0 fails on
inputs that are already rotated. -/
theorem roundtrip_rotation_not_zero_cex :
    rebuild (ingestBytes emptyState
        { doc := { pages := [{ content := 7, rot := some 90 }] } } true) =
      Except.ok { doc := { pages := [{ content := 7, rot := some 90 }] } } ∧
    getPageRotationAngle { content := 7, rot := some 90 } = 90 ∧
    getPageRotationAngle { content := 7, rot := some 90 } ≠ 0 := by
  exact ⟨rfl, rfl, by decide⟩

/-- C6 (amended): ingest followed by an immediate rebuild with the untouched
identity order and empty ledger reproduces the input bytes exactly — same
page count, same contents, and every page's rotation equal to its intrinsic
input rotation (hence 0 exactly for pages that were unrotated). -/
theorem ingest_rebuild_roundtrip_id (b : Bytes) :
    rebuild (ingestBytes emptyState b true) = Except.ok b ∧
    (ingestBytes emptyState b true).pageOrder = identityOrder b.doc.pages.length ∧
    (ingestBytes emptyState b true).pageRots = [] := by
  refine ⟨?_, rfl, rfl⟩
  have hs : ingestBytes emptyState b true =
      { rawBytes := some b, pageOrder := identityOrder b.doc.pages.length,
        pageRots := [], selectedPgs := ∅, curPage := 1,
        totalPages := b.doc.pages.length } := rfl
  rw [hs]
  have hok := rebuild_eq_ok
    { rawBytes := some b, pageOrder := identityOrder b.doc.pages.length,
      pageRots := [], selectedPgs := ∅, curPage := 1,
      totalPages := b.doc.pages.length } b b.doc.pages rfl (copyPages_identity b.doc)
  rw [hok]
  have hmap : (b.doc.pages.zip (identityOrder b.doc.pages.length)).map
      (fun pr => rotateIfNeeded [] pr.2 pr.1) = b.doc.pages := by
    have h1 : (b.doc.pages.zip (identityOrder b.doc.pages.length)).map
        (fun pr => rotateIfNeeded [] pr.2 pr.1)
        = (b.doc.pages.zip (identityOrder b.doc.pages.length)).map Prod.fst := by
      apply List.map_congr_left
      intro pr _
      exact rotateIfNeeded_nil pr.2 pr.1
    rw [h1, List.map_fst_zip]
    rw [length_identityOrder]
  rw [hmap]

/-! ## Claims C2 and C3: the content-edit commit protocol -/

/-- A sample 1-page document for exercising the commit flow. -/
def onePageBytes : Bytes := { doc := { pages := [{ content := 42, rot := none }] } }

/-- A session holding onePageBytes with page position 0 selected. -/
def selState : EditorState :=
  { rawBytes := some onePageBytes, pageOrder := [0], pageRots := [],
    selectedPgs := {0}, curPage := 1, totalPages := 1 }

/-- C2 counterexample: a commit through the content-edit flow succeeds, yet
the Selection Set is not cleared — applyEdit never touches S.selectedPgs,
so a pre-commit selection survives the commit. -/
theorem applyEdit_keeps_selection_cex :
    (applyContentEditFlow selState (fun _ => Except.ok onePageBytes)
        (fun b => Except.ok b.doc) (fun d => Except.ok d)
        (fun d => Except.ok (Bytes.mk d))).2 = Except.ok onePageBytes ∧
    ((applyContentEditFlow selState (fun _ => Except.ok onePageBytes)
        (fun b => Except.ok b.doc) (fun d => Except.ok d)
        (fun d => Except.ok (Bytes.mk d))).1).selectedPgs = {0} ∧
    ({0} : Finset Nat) ≠ (∅ : Finset Nat) := by
  exact ⟨rfl, rfl, by decide⟩

/-- C2 (amended): after every successful commit of the content-edit flow,
regardless of the pre-commit order table, ledger, or selection: the commit
bytes are installed as the new snapshot, the order table is reset to the
identity permutation over the new page count, the ledger is cleared, and
the current page is clamped into the new bounds; the Selection Set is left
unchanged (the handler does not clear it). -/
theorem commit_resets_order_ledger_clamps (s : EditorState)
    (rb : EditorState → Except EditErr Bytes) (ld : Bytes → Except EditErr Doc)
    (mt : Doc → Except EditErr Doc) (sv : Doc → Except EditErr Bytes)
    (s2 : EditorState) (commitBytes : Bytes)
    (h : applyContentEditFlow s rb ld mt sv = (s2, Except.ok commitBytes)) :
    s2.rawBytes = some commitBytes ∧
    s2.pageOrder = identityOrder commitBytes.doc.pages.length ∧
    s2.pageRots = [] ∧
    s2.totalPages = commitBytes.doc.pages.length ∧
    s2.curPage = min s.curPage commitBytes.doc.pages.length ∧
    (1 ≤ s.curPage → 1 ≤ commitBytes.doc.pages.length →
      1 ≤ s2.curPage ∧ s2.curPage ≤ commitBytes.doc.pages.length) ∧
    s2.selectedPgs = s.selectedPgs := by
  have h2 : s2 = applyEdit s commitBytes := by
    unfold applyContentEditFlow at h
    cases hrb : rb s with
    | error e1 =>
      rw [hrb] at h
      have hp : (s, (Except.error e1 : Except EditErr Bytes))
          = (s2, Except.ok commitBytes) := h
      obtain ⟨h1, hbad⟩ := Prod.mk.inj hp
      exact absurd hbad (by simp)
    | ok base =>
      rw [hrb] at h
      have h3 : (match ld base with
          | Except.error e => (s, Except.error e)
          | Except.ok doc =>
            match mt doc with
            | Except.error e => (s, Except.error e)
            | Except.ok doc2 =>
              match sv doc2 with
              | Except.error e => (s, Except.error e)
              | Except.ok cb => (applyEdit s cb, Except.ok cb))
          = (s2, Except.ok commitBytes) := h
      clear h
      cases hld : ld base with
      | error e1 =>
        rw [hld] at h3
        have hp : (s, (Except.error e1 : Except EditErr Bytes))
            = (s2, Except.ok commitBytes) := h3
        obtain ⟨h1, hbad⟩ := Prod.mk.inj hp
        exact absurd hbad (by simp)
      | ok doc =>
        rw [hld] at h3
        have h4 : (match mt doc with
            | Except.error e => (s, Except.error e)
            | Except.ok doc2 =>
              match sv doc2 with
              | Except.error e => (s, Except.error e)
              | Except.ok cb => (applyEdit s cb, Except.ok cb))
            = (s2, Except.ok commitBytes) := h3
        clear h3
        cases hmt : mt doc with
        | error e1 =>
          rw [hmt] at h4
          have hp : (s, (Except.error e1 : Except EditErr Bytes))
              = (s2, Except.ok commitBytes) := h4
          obtain ⟨h1, hbad⟩ := Prod.mk.inj hp
          exact absurd hbad (by simp)
        | ok doc2 =>
          rw [hmt] at h4
          have h5 : (match sv doc2 with
              | Except.error e => (s, Except.error e)
              | Except.ok cb => (applyEdit s cb, Except.ok cb))
              = (s2, Except.ok commitBytes) := h4
          clear h4
          cases hsv : sv doc2 with
          | error e1 =>
            rw [hsv] at h5
            have hp : (s, (Except.error e1 : Except EditErr Bytes))
                = (s2, Except.ok commitBytes) := h5
            obtain ⟨h1, hbad⟩ := Prod.mk.inj hp
            exact absurd hbad (by simp)
          | ok cb =>
            rw [hsv] at h5
            have hp : (applyEdit s cb, Except.ok cb)
                = (s2, Except.ok commitBytes) := h5
            obtain ⟨h1, hok⟩ := Prod.mk.inj hp
            have hcb : cb = commitBytes := by injection hok
            rw [← h1, hcb]
  subst h2
  refine ⟨rfl, rfl, rfl, rfl, rfl, ?_, rfl⟩
  intro hc ht
  constructor
  · exact Nat.le_min.mpr ⟨hc, ht⟩
  · exact Nat.min_le_right _ _

/-- C2 witness: the amended commit guarantee instantiated on selState with
always-succeeding codec steps. -/
theorem commit_resets_order_ledger_clamps_witness :
    ((applyContentEditFlow selState (fun _ => Except.ok onePageBytes)
        (fun b => Except.ok b.doc) (fun d => Except.ok d)
        (fun d => Except.ok (Bytes.mk d))).1).pageOrder
      = identityOrder onePageBytes.doc.pages.length ∧
    ((applyContentEditFlow selState (fun _ => Except.ok onePageBytes)
        (fun b => Except.ok b.doc) (fun d => Except.ok d)
        (fun d => Except.ok (Bytes.mk d))).1).pageRots = [] :=
  by
    have h := commit_resets_order_ledger_clamps selState
      (fun _ => Except.ok onePageBytes) (fun b => Except.ok b.doc)
      (fun d => Except.ok d) (fun d => Except.ok (Bytes.mk d))
      (applyEdit selState onePageBytes) onePageBytes rfl
    exact ⟨h.2.1, h.2.2.1⟩

/-- C3 (confirmed): if any of the four codec-dependent steps of the
content-edit flow fails, the flow reports the error and the session state
is returned completely unchanged — no partial commit is ever installed. -/
theorem contentEdit_failure_leaves_state (s : EditorState)
    (rb : EditorState → Except EditErr Bytes) (ld : Bytes → Except EditErr Doc)
    (mt : Doc → Except EditErr Doc) (sv : Doc → Except EditErr Bytes)
    (e : EditErr)
    (h : (applyContentEditFlow s rb ld mt sv).2 = Except.error e) :
    (applyContentEditFlow s rb ld mt sv).1 = s := by
  unfold applyContentEditFlow at h ⊢
  cases hrb : rb s with
  | error e1 => rfl
  | ok base =>
    rw [hrb] at h
    show (match ld base with
        | Except.error e => (s, Except.error e)
        | Except.ok doc =>
          match mt doc with
          | Except.error e => (s, Except.error e)
          | Except.ok doc2 =>
            match sv doc2 with
            | Except.error e => (s, Except.error e)
            | Except.ok cb => (applyEdit s cb, Except.ok cb)).1 = s
    have h3 : (match ld base with
        | Except.error e => (s, Except.error e)
        | Except.ok doc =>
          match mt doc with
          | Except.error e => (s, Except.error e)
          | Except.ok doc2 =>
            match sv doc2 with
            | Except.error e => (s, Except.error e)
            | Except.ok cb => (applyEdit s cb, Except.ok cb)).2
        = Except.error e := h
    clear h
    cases hld : ld base with
    | error e1 => rfl
    | ok doc =>
      rw [hld] at h3
      show (match mt doc with
          | Except.error e => (s, Except.error e)
          | Except.ok doc2 =>
            match sv doc2 with
            | Except.error e => (s, Except.error e)
            | Except.ok cb => (applyEdit s cb, Except.ok cb)).1 = s
      have h4 : (match mt doc with
          | Except.error e => (s, Except.error e)
          | Except.ok doc2 =>
            match sv doc2 with
            | Except.error e => (s, Except.error e)
            | Except.ok cb => (applyEdit s cb, Except.ok cb)).2
          = Except.error e := h3
      clear h3
      cases hmt : mt doc with
      | error e1 => rfl
      | ok doc2 =>
        rw [hmt] at h4
        show (match sv doc2 with
            | Except.error e => (s, Except.error e)
            | Except.ok cb => (applyEdit s cb, Except.ok cb)).1 = s
        have h5 : (match sv doc2 with
            | Except.error e => (s, Except.error e)
            | Except.ok cb => (applyEdit s cb, Except.ok cb)).2
            = Except.error e := h4
        clear h4
        cases hsv : sv doc2 with
        | error e1 => rfl
        | ok cb =>
          rw [hsv] at h5
          have hbad : (Except.ok cb : Except EditErr Bytes) = Except.error e := h5
          exact absurd hbad (by simp)

/-- C3 witness: a flow whose serialize step fails leaves selState intact. -/
theorem contentEdit_failure_leaves_state_witness :
    (applyContentEditFlow selState (fun _ => Except.ok onePageBytes)
        (fun b => Except.ok b.doc) (fun d => Except.ok d)
        (fun _ => Except.error EditErr.codecError)).1 = selState :=
  contentEdit_failure_leaves_state selState (fun _ => Except.ok onePageBytes)
    (fun b => Except.ok b.doc) (fun d => Except.ok d)
    (fun _ => Except.error EditErr.codecError) EditErr.codecError rfl

/-! ## Claim C4: fail-closed validation in the validated rebuild revision -/

/-- A session whose order table holds the out-of-range index 5 against a
1-page snapshot. -/
def badOrderState : EditorState :=
  { rawBytes := some { doc := { pages := [{ content := 1, rot := none }] } },
    pageOrder := [5], pageRots := [], selectedPgs := ∅,
    curPage := 1, totalPages := 1 }

/-- C4 counterexample: on an invalid order table the validated rebuild does
fail with the corruption error, but only after performing the codec load
and create calls — the claim that it performs no codec calls before
failing is false. -/
theorem rebuildValidated_calls_codec_before_failing :
    (rebuildValidated badOrderState).2 = Except.error EditErr.stateCorruption ∧
    CodecCall.load ∈ (rebuildValidated badOrderState).1 ∧
    CodecCall.create ∈ (rebuildValidated badOrderState).1 ∧
    (rebuildValidated badOrderState).1 ≠ [] := by
  refine ⟨rfl, ?_, ?_, by decide⟩
  · show CodecCall.load ∈ [CodecCall.load, CodecCall.create]
    decide
  · show CodecCall.create ∈ [CodecCall.load, CodecCall.create]
    decide

/-- Any list with an element failing the predicate filters to a strictly
shorter list, hence a different length. -/
lemma filter_length_ne {α : Type} (p : α → Bool) (l : List α) (a : α)
    (ha : a ∈ l) (hpa : p a = false) :
    (l.filter p).length ≠ l.length := by
  apply Nat.ne_of_lt
  exact List.length_filter_lt_length_iff_exists.mpr ⟨a, ha, by simp [hpa]⟩

/-- C4 (amended): whenever the order table holds an entry that is not a
valid original index, the validated rebuild fails with StateCorruption and
performs no page-copy and no serialize codec call before failing; it does
perform the load and create calls first, since the page count it validates
against is read from the loaded source handle. -/
theorem rebuildValidated_fail_closed_no_copy (s : EditorState) (b : Bytes)
    (hb : s.rawBytes = some b) (i : Int) (hi : i ∈ s.pageOrder)
    (hbad : i < 0 ∨ (b.doc.pages.length : Int) ≤ i) :
    (rebuildValidated s).2 = Except.error EditErr.stateCorruption ∧
    (rebuildValidated s).1 = [CodecCall.load, CodecCall.create] ∧
    CodecCall.copy ∉ (rebuildValidated s).1 ∧
    CodecCall.serialize ∉ (rebuildValidated s).1 := by
  have hfail : decide (0 ≤ i ∧ i < (b.doc.pages.length : Int)) = false := by
    simp only [decide_eq_false_iff_not]
    omega
  have hlen := filter_length_ne
    (fun j : Int => decide (0 ≤ j ∧ j < (b.doc.pages.length : Int)))
    s.pageOrder i hi hfail
  have hred : rebuildValidated s = ([CodecCall.load, CodecCall.create],
      Except.error EditErr.stateCorruption) := by
    unfold rebuildValidated
    rw [hb]
    simp only [if_pos hlen]
  rw [hred]
  refine ⟨rfl, rfl, by decide, by decide⟩

/-- C4 witness: the amended fail-closed behaviour on badOrderState. -/
theorem rebuildValidated_fail_closed_no_copy_witness :
    (rebuildValidated badOrderState).2 = Except.error EditErr.stateCorruption ∧
    (rebuildValidated badOrderState).1 = [CodecCall.load, CodecCall.create] ∧
    CodecCall.copy ∉ (rebuildValidated badOrderState).1 ∧
    CodecCall.serialize ∉ (rebuildValidated badOrderState).1 :=
  rebuildValidated_fail_closed_no_copy badOrderState
    { doc := { pages := [{ content := 1, rot := none }] } } rfl 5
    (by decide) (by decide)

/-! ## Claim C9: the multi-source merge -/

/-- The merge loop concatenates every source's full page list, in source
order, onto the accumulator. -/
lemma mergeLoop_ok (srcs : List Bytes) : ∀ acc : Doc,
    mergeLoop acc srcs
      = Except.ok (Doc.mk (acc.pages ++ (srcs.map (fun f => f.doc.pages)).flatten)) := by
  induction srcs with
  | nil =>
    intro acc
    simp only [mergeLoop, List.map_nil, List.flatten_nil, List.append_nil]
  | cons f rest ih =>
    intro acc
    unfold mergeLoop
    rw [copyPages_identity f.doc]
    show mergeLoop (Doc.mk (acc.pages ++ f.doc.pages)) rest
      = Except.ok (Doc.mk (acc.pages ++ (List.map (fun f => f.doc.pages) (f :: rest)).flatten))
    rw [ih (Doc.mk (acc.pages ++ f.doc.pages))]
    simp only [List.map_cons, List.flatten_cons, List.append_assoc]

/-- C9 (confirmed): merge refuses fewer than two sources with
InsufficientInputs; on two or more sources it outputs one document holding
every page of every source in each source's own order, concatenated in
list order; and the merge handler neither reads nor writes any session
state — its result is the same for any two sessions and the session is
returned unchanged. -/
theorem merge_concat_and_guard :
    (∀ sources : List Bytes, sources.length < 2 →
      mergeDocs sources = Except.error EditErr.insufficientInputs) ∧
    (∀ sources : List Bytes, 2 ≤ sources.length →
      mergeDocs sources
        = Except.ok (Bytes.mk (Doc.mk ((sources.map (fun f => f.doc.pages)).flatten)))) ∧
    (∀ s1 s2 : EditorState, ∀ sources : List Bytes,
      (mergeBtnOp s1 sources).2 = (mergeBtnOp s2 sources).2) ∧
    (∀ s : EditorState, ∀ sources : List Bytes, (mergeBtnOp s sources).1 = s) := by
  refine ⟨?_, ?_, ?_, ?_⟩
  · intro sources hlt
    unfold mergeDocs
    rw [if_pos hlt]
  · intro sources hge
    unfold mergeDocs
    rw [if_neg (by omega), mergeLoop_ok sources (Doc.mk [])]
    rfl
  · intro s1 s2 sources
    rfl
  · intro s sources
    rfl

/-- A 2-page sample document A. -/
def docA : Bytes :=
  { doc := { pages := [{ content := 101, rot := none }, { content := 102, rot := none }] } }

/-- A 3-page sample document B. -/
def docB : Bytes :=
  { doc := { pages := [{ content := 201, rot := none }, { content := 202, rot := none },
                       { content := 203, rot := none }] } }

/-- C9 witness: merging the 2-page A with the 3-page B yields the 5-page
document A1 A2 B1 B2 B3, and one source alone is refused. -/
theorem merge_concat_and_guard_witness :
    mergeDocs [docA, docB]
      = Except.ok (Bytes.mk (Doc.mk (([docA, docB].map (fun f => f.doc.pages)).flatten))) ∧
    mergeDocs [docA] = Except.error EditErr.insufficientInputs ∧
    (mergeBtnOp emptyState [docA, docB]).1 = emptyState :=
  ⟨merge_concat_and_guard.2.1 [docA, docB] (by decide),
   merge_concat_and_guard.1 [docA] (by decide),
   merge_concat_and_guard.2.2.2 emptyState [docA, docB]⟩

/-! ## Claim C10: split output depends only on the snapshot bytes -/

/-- C10 (confirmed): the split handler never mutates session state, and its
successful output is a function of the snapshot bytes and the range alone:
two sessions holding the same snapshot bytes — whatever their pending
order tables, ledgers, or selections — yield identical output whenever
both accept the range.  (The validation reads the displayed page count, so
a session whose table was shortened by deletes may reject a range the
other accepts; accepted outputs still agree.) -/
theorem split_function_of_snapshot :
    (∀ (s : EditorState) (fromPg toPg : Int), (splitOp s fromPg toPg).1 = s) ∧
    (∀ (s1 s2 : EditorState) (fromPg toPg : Int) (o1 o2 : Bytes),
      s1.rawBytes = s2.rawBytes →
      (splitOp s1 fromPg toPg).2 = Except.ok o1 →
      (splitOp s2 fromPg toPg).2 = Except.ok o2 → o1 = o2) := by
  have hok : ∀ (s : EditorState) (b : Bytes) (fromPg toPg : Int) (o : Bytes),
      s.rawBytes = some b → (splitOp s fromPg toPg).2 = Except.ok o →
      splitCore b fromPg toPg = Except.ok o := by
    intro s b fromPg toPg o hb h
    unfold splitOp at h
    rw [hb] at h
    have h3 : (if fromPg < 1 ∨ (s.totalPages : Int) < toPg ∨ toPg < fromPg
        then (s, (Except.error EditErr.invalidRange : Except EditErr Bytes))
        else (s, splitCore b fromPg toPg)).2 = Except.ok o := h
    by_cases hv : fromPg < 1 ∨ (s.totalPages : Int) < toPg ∨ toPg < fromPg
    · rw [if_pos hv] at h3
      exact absurd (h3 :
        (Except.error EditErr.invalidRange : Except EditErr Bytes) = Except.ok o) (by simp)
    · rw [if_neg hv] at h3
      exact h3
  constructor
  · intro s fromPg toPg
    unfold splitOp
    cases hb : s.rawBytes with
    | none => rfl
    | some b =>
      show (if fromPg < 1 ∨ (s.totalPages : Int) < toPg ∨ toPg < fromPg
          then (s, (Except.error EditErr.invalidRange : Except EditErr Bytes))
          else (s, splitCore b fromPg toPg)).1 = s
      by_cases hv : fromPg < 1 ∨ (s.totalPages : Int) < toPg ∨ toPg < fromPg
      · rw [if_pos hv]
      · rw [if_neg hv]
  · intro s1 s2 fromPg toPg o1 o2 hbb h1 h2
    cases hb1 : s1.rawBytes with
    | none =>
      unfold splitOp at h1
      rw [hb1] at h1
      exact absurd (h1 :
        (Except.error EditErr.noPdfLoaded : Except EditErr Bytes) = Except.ok o1) (by simp)
    | some b =>
      have hb2 : s2.rawBytes = some b := by rw [← hbb, hb1]
      have e1 := hok s1 b fromPg toPg o1 hb1 h1
      have e2 := hok s2 b fromPg toPg o2 hb2 h2
      rw [e1] at e2
      injection e2

/-- Two sessions over the same 2-page snapshot with different pending
order, ledger and selection. -/
def splitSessionA : EditorState :=
  { rawBytes := some wBytes, pageOrder := [0, 1], pageRots := [],
    selectedPgs := ∅, curPage := 1, totalPages := 2 }

/-- See splitSessionA: same snapshot, reversed order, a ledger entry and a
selection. -/
def splitSessionB : EditorState :=
  { rawBytes := some wBytes, pageOrder := [1, 0], pageRots := [(1, 180)],
    selectedPgs := {0}, curPage := 2, totalPages := 2 }

/-- C10 witness: split(1,2) on the two sessions returns identical bytes and
leaves the first session untouched. -/
theorem split_function_of_snapshot_witness :
    (splitOp splitSessionA 1 2).1 = splitSessionA ∧
    Bytes.mk (Doc.mk [{ content := 20, rot := some 90 }, { content := 21, rot := none }])
      = Bytes.mk (Doc.mk [{ content := 20, rot := some 90 }, { content := 21, rot := none }]) :=
  ⟨split_function_of_snapshot.1 splitSessionA 1 2,
   split_function_of_snapshot.2 splitSessionA splitSessionB 1 2
     (Bytes.mk (Doc.mk [{ content := 20, rot := some 90 }, { content := 21, rot := none }]))
     (Bytes.mk (Doc.mk [{ content := 20, rot := some 90 }, { content := 21, rot := none }]))
     rfl rfl rfl⟩

/-! ## List lemmas: descending splices compute position filtering -/

lemma jsSpliceRemove_nil (d : Nat) : jsSpliceRemove ([] : List Int) d = [] := by
  unfold jsSpliceRemove
  simp

lemma jsSpliceRemove_zero (a : Int) (rest : List Int) :
    jsSpliceRemove (a :: rest) 0 = rest := rfl

lemma jsSpliceRemove_succ (a : Int) (rest : List Int) (d : Nat) :
    jsSpliceRemove (a :: rest) (d + 1) = a :: jsSpliceRemove rest d := by
  unfold jsSpliceRemove
  rw [List.take_succ_cons, List.drop_succ_cons]
  rfl

/-- When every selected position lies below the scan index, nothing is
dropped. -/
lemma keepUnselected_all_lt (sel : Finset Nat) :
    ∀ (l : List Int) (n : Nat), (∀ x ∈ sel, x < n) → keepUnselected sel n l = l := by
  intro l
  induction l with
  | nil => intro n h; rfl
  | cons a rest ih =>
    intro n h
    have hn : n ∉ sel := fun hmem => absurd (h n hmem) (Nat.lt_irrefl n)
    unfold keepUnselected
    rw [if_neg hn, ih (n + 1) (fun x hx => Nat.lt_succ_of_lt (h x hx))]

/-- Splicing out position d commutes with position filtering: filtering the
spliced list by a selection entirely below d equals filtering the original
list by the selection plus d. -/
lemma keepUnselected_removeAt (sel : Finset Nat) :
    ∀ (l : List Int) (d n : Nat), (∀ x ∈ sel, x < n + d) →
      keepUnselected sel n (jsSpliceRemove l d)
        = keepUnselected (insert (n + d) sel) n l := by
  intro l
  induction l with
  | nil =>
    intro d n h
    rw [jsSpliceRemove_nil]
    rfl
  | cons a rest ih =>
    intro d n h
    cases d with
    | zero =>
      simp only [Nat.add_zero] at h ⊢
      rw [jsSpliceRemove_zero, keepUnselected_all_lt sel rest n h]
      have hbound : ∀ x ∈ insert n sel, x < n + 1 := by
        intro x hx
        rcases Finset.mem_insert.mp hx with hx1 | hx2
        · omega
        · exact Nat.lt_succ_of_lt (h x hx2)
      unfold keepUnselected
      rw [if_pos (Finset.mem_insert_self n sel),
        keepUnselected_all_lt (insert n sel) rest (n + 1) hbound]
    | succ d =>
      rw [jsSpliceRemove_succ]
      have harith : n + 1 + d = n + (d + 1) := by omega
      have hbound : ∀ x ∈ sel, x < n + 1 + d := by
        intro x hx
        have := h x hx
        omega
      have hihd := ih d (n + 1) hbound
      rw [harith] at hihd
      unfold keepUnselected
      by_cases hn : n ∈ sel
      · rw [if_pos hn, if_pos (Finset.mem_insert_of_mem hn), hihd]
      · have hne2 : n ∉ insert (n + (d + 1)) sel := by
          rw [Finset.mem_insert]
          push_neg
          exact ⟨by omega, hn⟩
        rw [if_neg hn, if_neg hne2, hihd]

/-- Folding splice-removals over strictly descending positions computes
exactly the filter by unselected position. -/
lemma foldl_remove_desc :
    ∀ (ds : List Nat) (l : List Int), ds.Pairwise (fun a b => a > b) →
      ds.foldl jsSpliceRemove l = keepUnselected ds.toFinset 0 l := by
  intro ds
  induction ds with
  | nil =>
    intro l hp
    rw [List.foldl_nil, List.toFinset_nil,
      keepUnselected_all_lt ∅ l 0 (fun x hx => absurd hx (Finset.not_mem_empty x))]
  | cons d ds ih =>
    intro l hp
    rw [List.foldl_cons]
    have hcons := List.pairwise_cons.mp hp
    rw [ih (jsSpliceRemove l d) hcons.2]
    have hlt : ∀ x ∈ ds.toFinset, x < 0 + d := by
      intro x hx
      have := hcons.1 x (List.mem_toFinset.mp hx)
      omega
    rw [keepUnselected_removeAt ds.toFinset l d 0 hlt]
    have h0 : (0 : Nat) + d = d := Nat.zero_add d
    rw [h0, List.toFinset_cons]

/-- keepUnselected keeps a subsequence of its input. -/
lemma keepUnselected_sublist (sel : Finset Nat) :
    ∀ (l : List Int) (n : Nat), (keepUnselected sel n l).Sublist l := by
  intro l
  induction l with
  | nil => intro n; exact List.Sublist.refl []
  | cons a rest ih =>
    intro n
    unfold keepUnselected
    by_cases hn : n ∈ sel
    · rw [if_pos hn]
      exact (ih (n + 1)).cons a
    · rw [if_neg hn]
      exact (ih (n + 1)).cons₂ a

lemma selSortAsc_mem (sel : Finset Nat) (i : Nat) :
    i ∈ selSortAsc sel ↔ i ∈ sel := by
  unfold selSortAsc
  rw [List.mem_filter, List.mem_range]
  constructor
  · exact fun h => of_decide_eq_true h.2
  · intro h
    refine ⟨?_, decide_eq_true h⟩
    have hle : id i ≤ sel.sup id := Finset.le_sup h
    simp only [id] at hle
    omega

lemma selSortAsc_sorted (sel : Finset Nat) :
    (selSortAsc sel).Pairwise (fun a b => a < b) :=
  List.Pairwise.filter _ (List.pairwise_lt_range _)

lemma selSortDesc_pairwise (sel : Finset Nat) :
    ((selSortAsc sel).reverse).Pairwise (fun a b => a > b) := by
  rw [List.pairwise_reverse]
  exact selSortAsc_sorted sel

lemma selSortDesc_toFinset (sel : Finset Nat) :
    ((selSortAsc sel).reverse).toFinset = sel := by
  apply Finset.ext
  intro i
  rw [List.mem_toFinset, List.mem_reverse]
  exact selSortAsc_mem sel i

/-- The delete fold over the descending selection equals the position
filter by the selection. -/
lemma delete_fold_eq_keep (sel : Finset Nat) (l : List Int) :
    ((selSortAsc sel).reverse).foldl jsSpliceRemove l = keepUnselected sel 0 l := by
  rw [foldl_remove_desc _ _ (selSortDesc_pairwise sel), selSortDesc_toFinset]

/-! ## Claim C8: the delete-all guard and exact removal -/

/-- C8 counterexample: on a session with an empty order table and empty
selection, the selection size equals the table length, yet delete is
rejected by the empty-selection guard (a silent return, no Cannot-delete-
all toast), not with CannotDeleteAll. -/
theorem delete_all_empty_table_cex :
    emptyState.selectedPgs.card = emptyState.pageOrder.length ∧
    deleteSelected emptyState = Except.error EditErr.emptySelection ∧
    deleteSelected emptyState ≠ Except.error EditErr.cannotDeleteAll := by
  refine ⟨rfl, rfl, ?_⟩
  intro h
  have h2 : (Except.error EditErr.emptySelection : Except EditErr EditorState)
      = Except.error EditErr.cannotDeleteAll := h
  simp at h2

/-- C8 (amended): for every session with a nonempty selection, a selection
whose size equals the order table's length is rejected with
CannotDeleteAll (no new state is produced, leaving the table unchanged),
and a selection strictly smaller than the table succeeds, the new order
table holding exactly the entries at unselected positions in their
original sequence, with the selection cleared. -/
theorem delete_guard_and_exact_removal (s : EditorState)
    (hne : s.selectedPgs ≠ ∅) :
    (s.selectedPgs.card = s.pageOrder.length →
      deleteSelected s = Except.error EditErr.cannotDeleteAll) ∧
    (s.selectedPgs.card < s.pageOrder.length →
      ∃ s2, deleteSelected s = Except.ok s2 ∧
        s2.pageOrder = keepUnselected s.selectedPgs 0 s.pageOrder ∧
        s2.selectedPgs = ∅ ∧ s2.rawBytes = s.rawBytes) := by
  constructor
  · intro heq
    unfold deleteSelected
    rw [if_neg hne, if_pos (by omega)]
  · intro hlt
    have hfold := delete_fold_eq_keep s.selectedPgs s.pageOrder
    refine ⟨{ s with
        pageOrder := ((selSortAsc s.selectedPgs).reverse).foldl jsSpliceRemove s.pageOrder,
        selectedPgs := ∅,
        totalPages :=
          (((selSortAsc s.selectedPgs).reverse).foldl jsSpliceRemove s.pageOrder).length,
        curPage := min s.curPage
          (((selSortAsc s.selectedPgs).reverse).foldl jsSpliceRemove s.pageOrder).length },
      ?_, ?_, rfl, rfl⟩
    · unfold deleteSelected
      rw [if_neg hne, if_neg (by omega : ¬ s.pageOrder.length ≤ s.selectedPgs.card)]
    · exact hfold

/-- A 2-page session with position 0 selected, for the delete witness. -/
def delState : EditorState :=
  { rawBytes := some wBytes, pageOrder := [0, 1], pageRots := [],
    selectedPgs := {0}, curPage := 1, totalPages := 2 }

/-- C8 witness: the guard-and-removal contract instantiated on delState. -/
theorem delete_guard_and_exact_removal_witness :
    (delState.selectedPgs.card = delState.pageOrder.length →
      deleteSelected delState = Except.error EditErr.cannotDeleteAll) ∧
    (delState.selectedPgs.card < delState.pageOrder.length →
      ∃ s2, deleteSelected delState = Except.ok s2 ∧
        s2.pageOrder = keepUnselected delState.selectedPgs 0 delState.pageOrder ∧
        s2.selectedPgs = ∅ ∧ s2.rawBytes = delState.rawBytes) :=
  delete_guard_and_exact_removal delState (by decide)

/-! ## Claim C7: the reorder-then-delete-then-rebuild scenario -/

/-- A 4-page sample snapshot with distinguishable page contents. -/
def fourPageBytes : Bytes :=
  { doc := { pages := [{ content := 10, rot := none }, { content := 11, rot := none },
                       { content := 12, rot := none }, { content := 13, rot := none }] } }

/-- The 4-page session after moving position 0 to position 2. -/
def scenarioReordered : EditorState :=
  reorderPages (ingestBytes emptyState fourPageBytes true) 0 2

/-- The reordered session with position 1 selected for deletion. -/
def scenarioSelected : EditorState :=
  { scenarioReordered with selectedPgs := {1} }

/-- The session expected after the deletion. -/
def scenarioDeleted : EditorState :=
  { rawBytes := some fourPageBytes, pageOrder := [1, 0, 3], pageRots := [],
    selectedPgs := ∅, curPage := 1, totalPages := 3 }

/-- C7: from the identity table over 4 pages, reorder(0 → 2) yields
[1,2,0,3]; deleting position 1 (which holds original index 2) yields
[1,0,3]; and rebuild copies original pages 1, 0, 3 in exactly that
order. -/
theorem reorder_delete_rebuild_scenario :
    (ingestBytes emptyState fourPageBytes true).pageOrder = [0, 1, 2, 3] ∧
    scenarioReordered.pageOrder = [1, 2, 0, 3] ∧
    deleteSelected scenarioSelected = Except.ok scenarioDeleted ∧
    rebuild scenarioDeleted = Except.ok (Bytes.mk (Doc.mk
      [{ content := 11, rot := none }, { content := 10, rot := none },
       { content := 13, rot := none }])) :=
  ⟨rfl, rfl, rfl, rfl⟩

/-! ## Claim C5: the order-table invariant across operations -/

lemma snapPageCount_congr (s s2 : EditorState) (h : s2.rawBytes = s.rawBytes) :
    snapPageCount s2 = snapPageCount s := by
  unfold snapPageCount
  rw [h]

/-- Inserting an element anywhere is, up to permutation, consing it. -/
lemma jsSpliceInsert_perm (m : List Int) (j : Nat) (a : Int) :
    (jsSpliceInsert m j a).Perm (a :: m) := by
  unfold jsSpliceInsert
  have h1 : (m.take j ++ a :: m.drop j).Perm (a :: (m.take j ++ m.drop j)) :=
    List.perm_middle
  rw [List.take_append_drop] at h1
  exact h1

/-- The reordered table is a permutation of the original. -/
lemma reorder_perm (s : EditorState) (o n : Nat) :
    ((reorderPages s o n).pageOrder).Perm s.pageOrder := by
  unfold reorderPages
  cases hget : s.pageOrder[o]? with
  | none => exact List.Perm.refl _
  | some moved =>
    show (jsSpliceInsert (jsSpliceRemove s.pageOrder o) n moved).Perm s.pageOrder
    have ho : o < s.pageOrder.length := by
      by_contra hlen
      push_neg at hlen
      rw [List.getElem?_eq_none hlen] at hget
      cases hget
    have hmv : s.pageOrder[o] = moved := by
      have h1 := List.getElem?_eq_getElem ho
      rw [hget] at h1
      injection h1 with h2
      exact h2.symm
    have hperm0 : (s.pageOrder.take o ++ s.pageOrder[o] :: s.pageOrder.drop (o + 1)).Perm
        (s.pageOrder[o] :: (s.pageOrder.take o ++ s.pageOrder.drop (o + 1))) :=
      List.perm_middle
    have heq1 : s.pageOrder.take o ++ s.pageOrder[o] :: s.pageOrder.drop (o + 1)
        = s.pageOrder := by
      rw [List.getElem_cons_drop, List.take_append_drop]
    rw [heq1, hmv] at hperm0
    exact (jsSpliceInsert_perm (jsSpliceRemove s.pageOrder o) n moved).trans hperm0.symm

lemma reorder_rawBytes (s : EditorState) (o n : Nat) :
    (reorderPages s o n).rawBytes = s.rawBytes := by
  unfold reorderPages
  cases s.pageOrder[o]? with
  | none => rfl
  | some moved => rfl

lemma jsSpliceRemove_sublist (l : List Int) (i : Nat) :
    (jsSpliceRemove l i).Sublist l := by
  unfold jsSpliceRemove
  have hdrop : l.drop (i + 1) = (l.drop i).drop 1 := by
    rw [List.drop_drop]
  have h1 : (l.drop (i + 1)).Sublist (l.drop i) := by
    rw [hdrop, List.drop_one]
    exact List.tail_sublist _
  have h2 := List.Sublist.append_left h1 (l.take i)
  rw [List.take_append_drop] at h2
  exact h2

lemma foldl_remove_sublist :
    ∀ (ds : List Nat) (l : List Int), (ds.foldl jsSpliceRemove l).Sublist l := by
  intro ds
  induction ds with
  | nil => intro l; exact List.Sublist.refl l
  | cons d ds ih =>
    intro l
    rw [List.foldl_cons]
    exact (ih (jsSpliceRemove l d)).trans (jsSpliceRemove_sublist l d)

lemma rotateSel_pageOrder (s : EditorState) (deg : Int) :
    (rotateSel s deg).pageOrder = s.pageOrder := by
  unfold rotateSel
  by_cases h : s.selectedPgs = ∅
  · rw [if_pos h]
  · rw [if_neg h]

lemma rotateSel_rawBytes (s : EditorState) (deg : Int) :
    (rotateSel s deg).rawBytes = s.rawBytes := by
  unfold rotateSel
  by_cases h : s.selectedPgs = ∅
  · rw [if_pos h]
  · rw [if_neg h]

/-- A session after ingest of a 2-page snapshot, with position 0 selected
(the pre-state of a delete). -/
def invStateSel : EditorState :=
  { rawBytes := some wBytes, pageOrder := [0, 1], pageRots := [],
    selectedPgs := {0}, curPage := 1, totalPages := 2 }

/-- The session invStateSel becomes after the delete. -/
def invStateDel : EditorState :=
  { rawBytes := some wBytes, pageOrder := [1], pageRots := [],
    selectedPgs := ∅, curPage := 1, totalPages := 1 }

/-- C5 counterexample: delete breaks the claimed full-permutation
invariant — it shortens the Page Order Table while leaving the snapshot
(and its page count) untouched, so afterwards the table length no longer
equals the snapshot's pageCount. -/
theorem delete_breaks_full_permutation_inv :
    OrderInvClaimed invStateSel ∧
    deleteSelected invStateSel = Except.ok invStateDel ∧
    ¬ OrderInvClaimed invStateDel := by
  refine ⟨by decide, rfl, by decide⟩

/-- C5 (amended): every operation — ingest, reorder, rotate, delete (when
it succeeds), and commit — preserves the invariant that the Page Order
Table holds distinct entries, each a valid original index of the
currently installed snapshot.  Ingest and commit reset it to the full
identity permutation; delete deliberately shortens it (the pending
deletion is only materialized by the next rebuild), so the table is in
general a permutation of a subset of [0, pageCount), not of all of it. -/
theorem ops_preserve_order_distinct_inrange :
    (∀ (s : EditorState) (b : Bytes), OrderInv (ingestBytes s b true)) ∧
    (∀ (s : EditorState) (o n : Nat), OrderInv s → OrderInv (reorderPages s o n)) ∧
    (∀ (s : EditorState) (deg : Int), OrderInv s → OrderInv (rotateSel s deg)) ∧
    (∀ (s s2 : EditorState), deleteSelected s = Except.ok s2 → OrderInv s → OrderInv s2) ∧
    (∀ (s : EditorState) (b : Bytes), OrderInv (applyEdit s b)) := by
  refine ⟨?_, ?_, ?_, ?_, ?_⟩
  · intro s b
    constructor
    · exact nodup_identityOrder _
    · intro i hi
      have h1 := mem_identityOrder hi
      exact ⟨h1.1, h1.2⟩
  · intro s o n hinv
    have hperm := reorder_perm s o n
    constructor
    · exact (hperm.symm).nodup hinv.1
    · intro i hi
      have hmem : i ∈ s.pageOrder := hperm.mem_iff.mp hi
      have h2 := hinv.2 i hmem
      rw [snapPageCount_congr s (reorderPages s o n) (reorder_rawBytes s o n)]
      exact h2
  · intro s deg hinv
    unfold OrderInv at hinv ⊢
    rw [rotateSel_pageOrder, snapPageCount_congr s (rotateSel s deg) (rotateSel_rawBytes s deg)]
    exact hinv
  · intro s s2 h hinv
    unfold deleteSelected at h
    by_cases h1 : s.selectedPgs = ∅
    · rw [if_pos h1] at h
      exact absurd h (by simp)
    · rw [if_neg h1] at h
      by_cases h2 : s.pageOrder.length ≤ s.selectedPgs.card
      · rw [if_pos h2] at h
        exact absurd h (by simp)
      · rw [if_neg h2] at h
        have hs2 : s2 = { s with
            pageOrder := ((selSortAsc s.selectedPgs).reverse).foldl jsSpliceRemove s.pageOrder,
            selectedPgs := ∅,
            totalPages :=
              (((selSortAsc s.selectedPgs).reverse).foldl jsSpliceRemove s.pageOrder).length,
            curPage := min s.curPage
              (((selSortAsc s.selectedPgs).reverse).foldl jsSpliceRemove s.pageOrder).length } := by
          injection h with hv
          exact hv.symm
        subst hs2
        have hsub := foldl_remove_sublist ((selSortAsc s.selectedPgs).reverse) s.pageOrder
        constructor
        · exact hsub.nodup hinv.1
        · intro i hi
          exact hinv.2 i (hsub.subset hi)
  · intro s b
    constructor
    · exact nodup_identityOrder _
    · intro i hi
      have h1 := mem_identityOrder hi
      exact ⟨h1.1, h1.2⟩

/-- C5 witness: the invariant holds after a reorder on a freshly ingested
2-page snapshot, and after a commit over emptyState. -/
theorem ops_preserve_order_distinct_inrange_witness :
    OrderInv (reorderPages (ingestBytes emptyState wBytes true) 0 1) ∧
    OrderInv (applyEdit emptyState wBytes) :=
  ⟨ops_preserve_order_distinct_inrange.2.1 (ingestBytes emptyState wBytes true) 0 1
      (by decide),
   ops_preserve_order_distinct_inrange.2.2.2.2 emptyState wBytes⟩
